import Mathlib

/-!
Verification of the TRENT-OS `lib_io` library: a shallow embedding of the
byte-FIFO dataport (`include/lib_io/FifoDataport.h`) and of the buffered
stream layer (`src/InputFifoStream.c`, `src/FifoStream.c`, `src/Stream.c`,
`include/lib_io/Stream.h`), together with proofs about the embedded code.

Modelling conventions:
* C byte buffers (`char*` regions) are modelled as total functions
  `Nat → Nat` from byte offsets to byte values; a `char*` returned to a
  caller is modelled as an `Option Nat` index into the backing buffer
  (`none` models `NULL`).
* `size_t` counters are modelled as `Nat`.  The spec states that the
  monotonic counters `in`/`out` "never wrap logically though their
  representation may wrap at the integer width" and explicitly leaves the
  wraparound of the machine representation out of scope, so the embedding
  uses the logical (unbounded) counters.
* `Debug_ASSERT` / `Debug_LOG_*` calls are side-effect free in release
  builds; they are modelled as no-ops, and the asserted conditions appear
  as hypotheses of the theorems where relevant.
* Functions of the underlying `CharFifo` (from the separate `lib_utils`
  repository, only its header is used by this repository) are modelled
  from the spec, as marked in their doc comments.
-/

set_option autoImplicit false

/-- Modelled from the spec: the `CharFifo` control block of `lib_utils`
(not part of this repository's sources; `FifoDataport.h` accesses its
fields `in`, `out`, `first`, `last` directly).  Spec §3: four counters
`in` (total elements ever pushed), `out` (total elements ever popped),
`first` (wrapped index of the oldest occupied slot), `last` (wrapped index
of the next free slot), a capacity and caller-supplied backing storage.
The C field `in` is called `in_` here because `in` is a Lean keyword. -/
structure CharFifo where
  buffer : Nat → Nat
  capacity : Nat
  in_ : Nat
  out : Nat
  first : Nat
  last : Nat

/-- Modelled from the spec: `construct(storage, capacity)` fails if
`capacity == 0`; otherwise zero-initializes `in=out=first=last=0`
(spec §4.1), over the caller-supplied storage. -/
def CharFifo_ctor (storage : Nat → Nat) (capacity : Nat) : Option CharFifo :=
  if capacity = 0 then none
  else some ⟨storage, capacity, 0, 0, 0, 0⟩

/-- Modelled from the spec: `size() = in - out` (spec §4.1). -/
def CharFifo_getSize (f : CharFifo) : Nat :=
  f.in_ - f.out

/-- Modelled from the spec: `capacity()` accessor (spec §4.1). -/
def CharFifo_getCapacity (f : CharFifo) : Nat :=
  f.capacity

/-- Modelled from the spec: `isEmpty()`, empty ⇔ `in == out` (spec §3). -/
def CharFifo_isEmpty (f : CharFifo) : Bool :=
  f.in_ == f.out

/-- Modelled from the spec: `isFull()`, full ⇔ `in - out == capacity`
(spec §3). -/
def CharFifo_isFull (f : CharFifo) : Bool :=
  CharFifo_getSize f == CharFifo_getCapacity f

/-- Modelled from the spec: `push(elem) -> bool` fails (returns false, no
mutation) if full; otherwise copies `elem` into slot `last`, advances
`last = (last+1) mod capacity` and `in += 1` (spec §4.1). -/
def CharFifo_push (f : CharFifo) (c : Nat) : Bool × CharFifo :=
  if CharFifo_isFull f then (false, f)
  else (true,
    { f with
        buffer := fun j => if j = f.last then c else f.buffer j
        last := (f.last + 1) % f.capacity
        in_ := f.in_ + 1 })

/-- Modelled from the spec: `peekFirst() -> pointer or null` returns the
element in slot `first` without popping, or null if empty (spec §4.1);
`InputFifoStream.c` calls it `CharFifo_getFirst` and dereferences the
returned pointer, modelled by returning the byte value itself. -/
def CharFifo_getFirst (f : CharFifo) : Option Nat :=
  if CharFifo_isEmpty f then none
  else some (f.buffer f.first)

/-- Modelled from the spec: `pop()` fails if empty; otherwise advances
`first = (first+1) mod capacity` and `out += 1` (spec §4.1). -/
def CharFifo_pop (f : CharFifo) : CharFifo :=
  if CharFifo_isEmpty f then f
  else { f with first := (f.first + 1) % f.capacity, out := f.out + 1 }

/-- Helper: push a whole list of bytes in order, dropping the success
flags (used to model C loops that push byte by byte after having checked
the available space, asserting that each push succeeds). -/
def CharFifo_pushAll (f : CharFifo) : List Nat → CharFifo
  | [] => f
  | b :: rest => CharFifo_pushAll (CharFifo_push f b).2 rest

/-- A `FifoDataport` (FifoDataport.h:29-34) is a `CharFifo` control block
followed by its flexible-array backing storage `data[]`; the embedding
keeps the storage inside the `CharFifo` record (its `buffer` field models
the `data[]` array the control block's storage pointer refers to). -/
abbrev FifoDataport := CharFifo

/-- FifoDataport_ctor (FifoDataport.h:46-54): constructs the `CharFifo`
over the trailing `data[]` array. -/
def FifoDataport_ctor (data : Nat → Nat) (capacity : Nat) : Option FifoDataport :=
  CharFifo_ctor data capacity

/-- FifoDataport_getSize (FifoDataport.h:66-71). -/
def FifoDataport_getSize (self : FifoDataport) : Nat :=
  CharFifo_getSize self

/-- FifoDataport_getCapacity (FifoDataport.h:84-89). -/
def FifoDataport_getCapacity (self : FifoDataport) : Nat :=
  CharFifo_getCapacity self

/-- FifoDataport_getFree (FifoDataport.h:102-111): `capacity - used`
(with `assert(used <= capacity)`). -/
def FifoDataport_getFree (self : FifoDataport) : Nat :=
  FifoDataport_getCapacity self - FifoDataport_getSize self

/-- FifoDataport_isEmpty (FifoDataport.h:122-127). -/
def FifoDataport_isEmpty (self : FifoDataport) : Bool :=
  CharFifo_isEmpty self

/-- FifoDataport_isFull (FifoDataport.h:138-143). -/
def FifoDataport_isFull (self : FifoDataport) : Bool :=
  CharFifo_isFull self

/-- FifoDataport_getContiguous (FifoDataport.h:166-231): snapshots `in`
and `out`; if `in == out` sets the out-pointer to `NULL` and returns 0;
otherwise points at `data[first]` and returns
`(first < last) ? last - first : capacity - first` where `last` is
recomputed locally as `in % capacity` (the stored `last` field may be
concurrently updated by the producer and is not used).  The returned
pointer is modelled as an `Option Nat` index into `data`. -/
def FifoDataport_getContiguous (self : FifoDataport) : Option Nat × Nat :=
  let in_ := self.in_
  let out := self.out
  if in_ = out then (none, 0)
  else
    let first := self.first
    let capacity := FifoDataport_getCapacity self
    let last := in_ % capacity
    (some first, if first < last then last - first else capacity - first)

/-- FifoDataport_getFirst (FifoDataport.h:237-244): deprecated wrapper
returning only the buffer pointer of `FifoDataport_getContiguous`. -/
def FifoDataport_getFirst (self : FifoDataport) : Option Nat :=
  (FifoDataport_getContiguous self).1

/-- FifoDataport_remove (FifoDataport.h:357-385): asserts
`amount <= used`, then advances `first` by `amount` with explicit
wraparound subtraction (`if updated_first >= capacity then
updated_first -= capacity`) and does `out += amount`, touching no other
field. -/
def FifoDataport_remove (self : FifoDataport) (amount : Nat) : FifoDataport :=
  let capacity := FifoDataport_getCapacity self
  let updated_first := self.first + amount
  let updated_first :=
    if updated_first ≥ capacity then updated_first - capacity else updated_first
  { self with first := updated_first, out := self.out + amount }

/-- FifoDataport_add (FifoDataport.h:400-428): asserts `amount <= free`,
then advances `last` by `amount` with explicit wraparound subtraction and
does `in += amount`, touching no other field. -/
def FifoDataport_add (self : FifoDataport) (amount : Nat) : FifoDataport :=
  let capacity := FifoDataport_getCapacity self
  let updated_last := self.last + amount
  let updated_last :=
    if updated_last ≥ capacity then updated_last - capacity else updated_last
  { self with last := updated_last, in_ := self.in_ + amount }

/-- FifoDataport_read (FifoDataport.h:443-466): while fewer than `len`
bytes are read, takes the source pointer from `FifoDataport_getFirst`,
stops when it is `NULL`, otherwise copies the byte it refers to and pops;
returns the bytes moved (as the list of read bytes, whose length is the
C return value). -/
def FifoDataport_read (self : FifoDataport) (len : Nat) : List Nat × FifoDataport :=
  match len with
  | 0 => ([], self)
  | Nat.succ n =>
    match FifoDataport_getFirst self with
    | none => ([], self)
    | some idx =>
      let b := self.buffer idx
      let rec_ := FifoDataport_read (CharFifo_pop self) n
      (b :: rec_.1, rec_.2)

/-- FifoDataport_write (FifoDataport.h:481-499): pushes bytes from `buf`
one by one while `CharFifo_push` succeeds, returning the number of bytes
actually copied. -/
def FifoDataport_write (self : FifoDataport) (buf : List Nat) : Nat × FifoDataport :=
  match buf with
  | [] => (0, self)
  | b :: rest =>
    match CharFifo_push self b with
    | (false, f) => (0, f)
    | (true, f) =>
      let rec_ := FifoDataport_write f rest
      (rec_.1 + 1, rec_.2)

/-- An `InputFifoStream` (InputFifoStream.h) owns one process-private
`CharFifo` as its read buffer; the `parent.vtable` plumbing of the C
struct is modelled by the static dispatch table below. -/
structure InputFifoStream where
  readFifo : CharFifo

/-- InputFifoStream_ctor (InputFifoStream.c:46-66): constructs the read
FIFO over the caller-supplied buffer; fails iff `CharFifo_ctor` fails. -/
def InputFifoStream_ctor (readBuf : Nat → Nat) (readBufSize : Nat) :
    Option InputFifoStream :=
  match CharFifo_ctor readBuf readBufSize with
  | none => none
  | some f => some ⟨f⟩

/-- Helper for `InputFifoStream_read`: the body of its while loop, run a
fixed number of times: each iteration reads the first byte of the FIFO
(`*CharFifo_getFirst`, modelled with default 0, never hit because the
loop bound keeps the FIFO nonempty) and pops it. -/
def InputFifoStream_readLoop : CharFifo → Nat → List Nat × CharFifo
  | fifo, 0 => ([], fifo)
  | fifo, Nat.succ k =>
    let b := (CharFifo_getFirst fifo).getD 0
    let rec_ := InputFifoStream_readLoop (CharFifo_pop fifo) k
    (b :: rec_.1, rec_.2)

/-- InputFifoStream_read (InputFifoStream.c:68-85): snapshots
`fifoSize = CharFifo_getSize(readFifo)` and loops while
`readBytes < length && readBytes < fifoSize`, so it moves exactly
`min length fifoSize` bytes; returns the bytes read (the C return value
is their count) and the updated stream. -/
def InputFifoStream_read (self : InputFifoStream) (length : Nat) :
    List Nat × InputFifoStream :=
  let fifoSize := CharFifo_getSize self.readFifo
  let rec_ := InputFifoStream_readLoop self.readFifo (min length fifoSize)
  (rec_.1, ⟨rec_.2⟩)

/-- InputFifoStream_available (InputFifoStream.c:133-139). -/
def InputFifoStream_available (self : InputFifoStream) : Nat :=
  CharFifo_getSize self.readFifo

/-- The value `(size_t)EOF` on a 64-bit platform: `InputFifoStream_get`
has return type `size_t` and returns the `int` constant `EOF = -1`
through an implicit conversion. -/
def EOF_sizeT : Nat := 2 ^ 64 - 1

/-- The test `strchr(delims, c) != NULL` (InputFifoStream.c:110) on the C
string whose characters are `delims`: true iff `c` occurs among the
characters, or `c == 0` (strchr also finds the terminating NUL). -/
def strchrHit (delims : List Nat) (c : Nat) : Bool :=
  delims.contains c || c == 0

/-- Final state of the `InputFifoStream_get` while loop: the caller's
output buffer, the local variables `i` and `foundDelim`, the stream, and
the current tick count. -/
structure GetLoopOut where
  buff : Nat → Nat
  i : Nat
  foundDelim : Bool
  self : InputFifoStream
  now : Nat

/-- The while loop of InputFifoStream_get (InputFifoStream.c:101-129),
with an explicit fuel bound (`none` models non-termination within the
given fuel).  Loop condition: `i < len && !foundDelim && (timeoutTicks ==
0 || now - timeBase < timeoutTicks)`.  Body: `InputFifoStream_read` of
one byte into `buff[i]`; on success, if the byte is found in `delims` by
`strchr`, set `foundDelim` and overwrite `buff[i]` with 0, else `i++`;
when no byte was available, `System_delayTicks(1)`, modelled as
advancing the tick count by one (the platform tick counter advances only
during explicit delays in this single-threaded model). -/
def InputFifoStream_getLoop (fuel : Nat) (self : InputFifoStream)
    (buff : Nat → Nat) (i : Nat) (foundDelim : Bool) (len : Nat)
    (delims : Option (List Nat)) (timeoutTicks : Nat)
    (timeBase now : Nat) : Option GetLoopOut :=
  match fuel with
  | 0 => none
  | Nat.succ fuel =>
    if i < len ∧ foundDelim = false ∧
        (timeoutTicks = 0 ∨ now - timeBase < timeoutTicks) then
      match InputFifoStream_read self 1 with
      | ([], self1) =>
        InputFifoStream_getLoop fuel self1 buff i foundDelim len delims
          timeoutTicks timeBase (now + 1)
      | (b :: _, self1) =>
        match delims with
        | some ds =>
          if strchrHit ds b then
            InputFifoStream_getLoop fuel self1
              (fun j => if j = i then 0 else buff j) i true len delims
              timeoutTicks timeBase now
          else
            InputFifoStream_getLoop fuel self1
              (fun j => if j = i then b else buff j) (i + 1) foundDelim len
              delims timeoutTicks timeBase now
        | none =>
          InputFifoStream_getLoop fuel self1
            (fun j => if j = i then b else buff j) (i + 1) foundDelim len
            delims timeoutTicks timeBase now
    else
      some ⟨buff, i, foundDelim, self, now⟩

/-- InputFifoStream_get (InputFifoStream.c:87-131): runs the while loop
starting from `i = 0`, `foundDelim = false` and
`timeBase = System_getTickCount()`, then returns
`(foundDelim || i == len) ? i : EOF`, together with the mutated output
buffer and stream.  `timeBase` is the tick count at entry; `fuel` bounds
the number of loop iterations of the model. -/
def InputFifoStream_get (fuel : Nat) (self : InputFifoStream)
    (buff : Nat → Nat) (len : Nat) (delims : Option (List Nat))
    (timeoutTicks : Nat) (timeBase : Nat) :
    Option (Nat × (Nat → Nat) × InputFifoStream) :=
  match InputFifoStream_getLoop fuel self buff 0 false len delims
      timeoutTicks timeBase timeBase with
  | none => none
  | some o =>
    some ((if o.foundDelim || o.i == len then o.i else EOF_sizeT),
      o.buff, o.self)

/-- A `FifoStream` (FifoStream.h) composes the `InputFifoStream` parent
(read side) with a private outbound `writeFifo`. -/
structure FifoStream where
  parent : InputFifoStream
  writeFifo : CharFifo

/-- FifoStream_ctor (FifoStream.c:38-67): constructs the write FIFO and
the parent `InputFifoStream`; fails if either construction fails. -/
def FifoStream_ctor (writeBuf : Nat → Nat) (writeBufSize : Nat)
    (readBuf : Nat → Nat) (readBufSize : Nat) : Option FifoStream :=
  match CharFifo_ctor writeBuf writeBufSize with
  | none => none
  | some wf =>
    match InputFifoStream_ctor readBuf readBufSize with
    | none => none
    | some p => some ⟨p, wf⟩

/-- FifoStream_write (FifoStream.c:69-97): if `length > 0`, computes
`free = capacity - size` of the write FIFO and
`written = length < free ? length : free`, then pushes the first
`written` bytes of `buffer` one by one (each push asserted to succeed);
returns `written`. -/
def FifoStream_write (self : FifoStream) (buffer : List Nat) :
    Nat × FifoStream :=
  let length := buffer.length
  if 0 < length then
    let capacity := CharFifo_getCapacity self.writeFifo
    let size := CharFifo_getSize self.writeFifo
    let free := capacity - size
    let written := if length < free then length else free
    (written,
      { self with writeFifo := CharFifo_pushAll self.writeFifo (buffer.take written) })
  else
    (0, self)

/-- FifoStream_flush (FifoStream.c:99-121): "There is no generic way to
flush a FifoStream"; the body only emits `Debug_LOG_FATAL("flushing a
FifoStream is not supported")` and `Debug_ASSERT(false)` (fatal in debug
builds, a logged no-op in release builds); it never polls and never
touches the FIFOs, so the state is returned unchanged. -/
def FifoStream_flush (self : FifoStream) : FifoStream :=
  self

/-- The Stream vtable (Stream.h:57-68), over the concrete stream state
`S`; only the entries the claims are about are included (`write` takes
the buffer as the list of the `length` bytes the C caller passes). -/
structure Stream_Vtable (S : Type) where
  write : S → List Nat → Nat × S
  flush : S → S

namespace InputFifoStreamFile

/-- The file-local `static size_t write(...)` of InputFifoStream.c:14-19:
"an input fifo stream does not know how to write", returns 0 and touches
nothing. -/
def write (self : InputFifoStream) (buffer : List Nat) :
    Nat × InputFifoStream :=
  (0, self)

/-- The file-local `static void flush(...)` of InputFifoStream.c:21-26:
"an input fifo stream does not know how to flush", does nothing. -/
def flush (self : InputFifoStream) : InputFifoStream :=
  self

end InputFifoStreamFile

/-- InputFifoStream_vtable (InputFifoStream.c:31-41): the dispatch table
installed by `InputFifoStream_ctor`; its `write` entry is the file-local
no-op `write`. -/
def InputFifoStream_vtable : Stream_Vtable InputFifoStream :=
  ⟨InputFifoStreamFile.write, InputFifoStreamFile.flush⟩

/-- Stream_write (Stream.h:90-95): virtual dispatch
`self->vtable->write(self, buffer, length)`. -/
def Stream_write {S : Type} (vtable : Stream_Vtable S) (self : S)
    (buffer : List Nat) : Nat × S :=
  vtable.write self buffer

/-- The control-block invariant of a `CharFifo` (spec §3): occupancy
between 0 and capacity, and the cached wrapped indices `first`/`last`
agreeing with the monotonic counters. -/
def CharFifo_Inv (f : CharFifo) : Prop :=
  0 < f.capacity ∧ f.out ≤ f.in_ ∧ f.in_ - f.out ≤ f.capacity ∧
  f.first = f.out % f.capacity ∧ f.last = f.in_ % f.capacity

instance (f : CharFifo) : Decidable (CharFifo_Inv f) := by
  unfold CharFifo_Inv; infer_instance

/-- Abstraction function: the byte content of the FIFO in queue order,
read from slot `first` onwards. -/
def CharFifo_toList (f : CharFifo) : List Nat :=
  (List.range (CharFifo_getSize f)).map
    (fun k => f.buffer ((f.first + k) % f.capacity))

/-- The ops the producer and the consumer of a `FifoDataport` perform:
`commitWrite`/`commitRead` of a number of bytes. -/
inductive FifoOp where
  | add : Nat → FifoOp
  | remove : Nat → FifoOp

/-- One `FifoDataport` commit operation. -/
def FifoDataport_step (f : FifoDataport) : FifoOp → FifoDataport
  | FifoOp.add a => FifoDataport_add f a
  | FifoOp.remove a => FifoDataport_remove f a

/-- Run a sequence of commit operations. -/
def FifoDataport_run (f : FifoDataport) : List FifoOp → FifoDataport
  | [] => f
  | op :: rest => FifoDataport_run (FifoDataport_step f op) rest

/-- A sequence of commit operations respects the queried bounds when each
`add` stays within the free space and each `remove` within the occupancy
reported at the point of the call (the contract the code asserts). -/
def FifoOp_respects (f : FifoDataport) : List FifoOp → Bool
  | [] => true
  | FifoOp.add a :: rest =>
    decide (a ≤ FifoDataport_getFree f) &&
      FifoOp_respects (FifoDataport_add f a) rest
  | FifoOp.remove a :: rest =>
    decide (a ≤ FifoDataport_getSize f) &&
      FifoOp_respects (FifoDataport_remove f a) rest

/-- An all-zero backing buffer, used for the concrete instances below. -/
def zeroBuf : Nat → Nat := fun _ => 0

/-- Fallback value used with `Option.getD` when destructing constructor
results of concrete instances (never reached, the constructions succeed). -/
def CharFifo_fallback : CharFifo := ⟨zeroBuf, 0, 0, 0, 0, 0⟩

/-- A concrete `CharFifo` of the given capacity pre-loaded with the given
bytes (constructed and filled through the modelled operations). -/
def mkCharFifo (capacity : Nat) (bs : List Nat) : CharFifo :=
  CharFifo_pushAll ((CharFifo_ctor zeroBuf capacity).getD CharFifo_fallback) bs

/-- The delimiter string "\n" of the concrete scenarios. -/
def delimsNL : Option (List Nat) := some [10]

/-- A concrete input stream whose read FIFO holds the two bytes "ab". -/
def sTimeoutEx : InputFifoStream := ⟨mkCharFifo 4 [97, 98]⟩

/-- The final loop state of `InputFifoStream_get` on `sTimeoutEx` with
`len = 5`, delimiters "\n" and timeout 1. -/
def oTimeoutEx : GetLoopOut :=
  (InputFifoStream_getLoop 10 sTimeoutEx zeroBuf 0 false 5 delimsNL 1 0 0).getD
    ⟨zeroBuf, 0, false, sTimeoutEx, 0⟩

/-- A concrete input stream whose read FIFO holds "abc\ndef". -/
def sAbcDef : InputFifoStream := ⟨mkCharFifo 8 [97, 98, 99, 10, 100, 101, 102]⟩

/-- A concrete input stream whose read FIFO holds "x\n". -/
def sDelimEx : InputFifoStream := ⟨mkCharFifo 4 [120, 10]⟩

/-- The final loop state of `InputFifoStream_get` on `sDelimEx` with
`len = 5`, delimiters "\n" and timeout 7. -/
def oDelimEx : GetLoopOut :=
  (InputFifoStream_getLoop 10 sDelimEx zeroBuf 0 false 5 delimsNL 7 0 0).getD
    ⟨zeroBuf, 0, false, sDelimEx, 0⟩

/-- A concrete duplex stream with write FIFO and read FIFO of capacity 4. -/
def sDuplex : FifoStream :=
  (FifoStream_ctor zeroBuf 4 zeroBuf 4).getD ⟨⟨CharFifo_fallback⟩, CharFifo_fallback⟩

/-- The duplex stream `sDuplex` after one byte was written and not yet
drained: its outbound FIFO is nonempty. -/
def sDuplex1 : FifoStream := (FifoStream_write sDuplex [7]).2

/-- The duplex stream `sDuplex` after the two bytes "\x05\x06" were
written: exactly 2 of the 4 outbound bytes remain free. -/
def sDuplex2 : FifoStream := (FifoStream_write sDuplex [5, 6]).2

/-- A concrete empty dataport FIFO of capacity 4. -/
def fRun4 : FifoDataport := (FifoDataport_ctor zeroBuf 4).getD CharFifo_fallback

/-- The dataport FIFO `fRun4` after a producer committed 3 bytes. -/
def f6 : FifoDataport := FifoDataport_add fRun4 3

/-- A concrete legal commit sequence on `fRun4` whose final `add` wraps
the `last` index around the capacity boundary. -/
def opsEx : List FifoOp := [FifoOp.add 3, FifoOp.remove 2, FifoOp.add 3]

/-- A concrete empty dataport FIFO of capacity 3 for the round trip. -/
def fRT : FifoDataport := (FifoDataport_ctor zeroBuf 3).getD CharFifo_fallback


theorem wrap_sub_eq_mod {b a c : Nat} (hb : b < c) (ha : a ≤ c) :
    (if b + a ≥ c then b + a - c else b + a) = (b + a) % c := by
  split
  · rename_i h
    rw [Nat.mod_eq_sub_mod h, Nat.mod_eq_of_lt (by omega)]
  · rename_i h
    rw [Nat.mod_eq_of_lt (by omega)]

theorem CharFifo_ctor_some {storage : Nat → Nat} {capacity : Nat}
    {f : CharFifo} (h : CharFifo_ctor storage capacity = some f) :
    f = ⟨storage, capacity, 0, 0, 0, 0⟩ ∧ 0 < capacity := by
  unfold CharFifo_ctor at h
  split at h
  · exact absurd h (by simp)
  · rename_i hcap
    refine ⟨by injection h with h; exact h.symm, by omega⟩

theorem CharFifo_ctor_Inv {storage : Nat → Nat} {capacity : Nat}
    {f : CharFifo} (h : CharFifo_ctor storage capacity = some f) :
    CharFifo_Inv f ∧ CharFifo_getSize f = 0 ∧ CharFifo_toList f = [] := by
  obtain ⟨hf, hcap⟩ := CharFifo_ctor_some h
  subst hf
  refine ⟨⟨hcap, Nat.le_refl _, by simp, by simp, by simp⟩, rfl, ?_⟩
  simp [CharFifo_toList, CharFifo_getSize]

theorem CharFifo_toList_length (f : CharFifo) :
    (CharFifo_toList f).length = CharFifo_getSize f := by
  simp [CharFifo_toList]

/-- Key slot-distinctness fact: with fewer than `capacity` elements, the
slot of the `k`-th element differs from the next free slot. -/
theorem CharFifo_slot_ne {out k s c : Nat} (hk : k < s) (hs : s < c) :
    (out % c + k) % c ≠ (out + s) % c := by
  intro h
  rw [Nat.mod_add_mod] at h
  have hle : out + k ≤ out + s := by omega
  have hdvd : c ∣ (out + s) - (out + k) := (Nat.modEq_iff_dvd' hle).mp h
  have : (out + s) - (out + k) = s - k := by omega
  rw [this] at hdvd
  have := Nat.le_of_dvd (by omega) hdvd
  omega

theorem CharFifo_push_notFull (f : CharFifo) (b : Nat)
    (hInv : CharFifo_Inv f) (hs : CharFifo_getSize f < f.capacity) :
    (CharFifo_push f b).1 = true ∧
    CharFifo_Inv (CharFifo_push f b).2 ∧
    CharFifo_getSize (CharFifo_push f b).2 = CharFifo_getSize f + 1 ∧
    CharFifo_toList (CharFifo_push f b).2 = CharFifo_toList f ++ [b] := by
  obtain ⟨hc, hoi, hcap, hfst, hlst⟩ := hInv
  have hsz : CharFifo_getSize f = f.in_ - f.out := rfl
  have hnotfull : CharFifo_isFull f = false := by
    simp only [CharFifo_isFull, CharFifo_getCapacity, beq_eq_false_iff_ne, ne_eq]
    omega
  simp only [CharFifo_push, hnotfull, Bool.false_eq_true, if_false]
  refine ⟨by trivial, ⟨hc, by simp; omega, by simp [CharFifo_getSize] at *; omega,
    by simpa using hfst, ?_⟩, by simp [CharFifo_getSize] at *; omega, ?_⟩
  · simp only [hlst, Nat.mod_add_mod]
  · have hs1 : CharFifo_getSize
        { f with
            buffer := fun j => if j = f.last then b else f.buffer j
            last := (f.last + 1) % f.capacity
            in_ := f.in_ + 1 } = CharFifo_getSize f + 1 := by
      simp [CharFifo_getSize] at *; omega
    simp only [CharFifo_toList, hs1, List.range_succ, List.map_append,
      List.map_cons, List.map_nil]
    congr 1
    · apply List.map_congr_left
      intro k hk
      simp only [List.mem_range] at hk
      have hne : (f.first + k) % f.capacity ≠ f.last := by
        rw [hfst, hlst]
        have : (f.out + (f.in_ - f.out)) = f.in_ := by omega
        rw [← this]
        exact CharFifo_slot_ne hk (by omega)
      simp [hne]
    · have heq : (f.first + CharFifo_getSize f) % f.capacity = f.last := by
        rw [hfst, hlst, Nat.mod_add_mod, hsz]
        congr 1
        omega
      simp [heq]

theorem CharFifo_pop_notEmpty (f : CharFifo) (hInv : CharFifo_Inv f)
    (hs : 0 < CharFifo_getSize f) :
    CharFifo_getFirst f = some (f.buffer f.first) ∧
    CharFifo_Inv (CharFifo_pop f) ∧
    CharFifo_getSize (CharFifo_pop f) = CharFifo_getSize f - 1 ∧
    CharFifo_toList f = f.buffer f.first :: CharFifo_toList (CharFifo_pop f) := by
  obtain ⟨hc, hoi, hcap, hfst, hlst⟩ := hInv
  have hsz : CharFifo_getSize f = f.in_ - f.out := rfl
  have hne : CharFifo_isEmpty f = false := by
    simp only [CharFifo_isEmpty, beq_eq_false_iff_ne, ne_eq]
    omega
  simp only [CharFifo_getFirst, CharFifo_pop, hne, Bool.false_eq_true, if_false]
  refine ⟨by trivial, ⟨hc, by simp; omega, by simp [CharFifo_getSize] at *; omega,
    by simp only [hfst, Nat.mod_add_mod], by simpa using hlst⟩,
    by simp [CharFifo_getSize] at *; omega, ?_⟩
  have hs2 : CharFifo_getSize
      { f with first := (f.first + 1) % f.capacity, out := f.out + 1 } =
      CharFifo_getSize f - 1 := by
    simp [CharFifo_getSize] at *; omega
  have hsplit : CharFifo_getSize f = (CharFifo_getSize f - 1) + 1 := by omega
  conv_lhs => rw [CharFifo_toList, hsplit, List.range_succ_eq_map]
  simp only [List.map_cons, List.map_map, CharFifo_toList, hs2]
  congr 1
  · have hlt : f.first < f.capacity := by
      rw [hfst]; exact Nat.mod_lt _ hc
    simp [Nat.mod_eq_of_lt hlt]
  · apply List.map_congr_left
    intro k hk
    simp only [Function.comp_apply]
    congr 1
    simp only [Nat.mod_add_mod]
    congr 1
    omega

theorem CharFifo_pushAll_toList (bs : List Nat) : ∀ (f : CharFifo),
    CharFifo_Inv f → CharFifo_getSize f + bs.length ≤ f.capacity →
    CharFifo_Inv (CharFifo_pushAll f bs) ∧
    CharFifo_getSize (CharFifo_pushAll f bs) = CharFifo_getSize f + bs.length ∧
    CharFifo_toList (CharFifo_pushAll f bs) = CharFifo_toList f ++ bs := by
  induction bs with
  | nil => intro f hInv _; exact ⟨hInv, by simp [CharFifo_pushAll], by simp [CharFifo_pushAll]⟩
  | cons b rest ih =>
    intro f hInv hroom
    have hp := CharFifo_push_notFull f b hInv (by simp at hroom; omega)
    have hcap2 : (CharFifo_push f b).2.capacity = f.capacity := by
      simp only [CharFifo_push]
      split <;> rfl
    have := ih (CharFifo_push f b).2 hp.2.1
      (by rw [hp.2.2.1, hcap2]; simp at hroom ⊢; omega)
    refine ⟨this.1, ?_, ?_⟩
    · simp only [CharFifo_pushAll]
      rw [this.2.1, hp.2.2.1]
      simp; omega
    · simp only [CharFifo_pushAll]
      rw [this.2.2, hp.2.2.2]
      simp

theorem FifoDataport_write_all (bs : List Nat) : ∀ (f : FifoDataport),
    CharFifo_Inv f → CharFifo_getSize f + bs.length ≤ f.capacity →
    (FifoDataport_write f bs).1 = bs.length ∧
    CharFifo_Inv (FifoDataport_write f bs).2 ∧
    CharFifo_getSize (FifoDataport_write f bs).2 =
      CharFifo_getSize f + bs.length ∧
    CharFifo_toList (FifoDataport_write f bs).2 = CharFifo_toList f ++ bs := by
  induction bs with
  | nil =>
    intro f hInv _
    exact ⟨rfl, hInv, by simp [FifoDataport_write], by simp [FifoDataport_write]⟩
  | cons b rest ih =>
    intro f hInv hroom
    have hp := CharFifo_push_notFull f b hInv (by simp at hroom; omega)
    have hpair : CharFifo_push f b = (true, (CharFifo_push f b).2) := by
      rw [← hp.1]
    have hcap2 : (CharFifo_push f b).2.capacity = f.capacity := by
      simp only [CharFifo_push]
      split <;> rfl
    have := ih (CharFifo_push f b).2 hp.2.1
      (by rw [hp.2.2.1, hcap2]; simp at hroom ⊢; omega)
    rw [FifoDataport_write, hpair]
    refine ⟨by simpa using this.1, this.2.1, ?_, ?_⟩
    · rw [this.2.2.1, hp.2.2.1]; simp; omega
    · rw [this.2.2.2, hp.2.2.2]; simp

theorem FifoDataport_read_toList (n : Nat) : ∀ (f : FifoDataport),
    CharFifo_Inv f → n ≤ CharFifo_getSize f →
    (FifoDataport_read f n).1 = (CharFifo_toList f).take n ∧
    CharFifo_Inv (FifoDataport_read f n).2 ∧
    CharFifo_getSize (FifoDataport_read f n).2 = CharFifo_getSize f - n := by
  induction n with
  | zero =>
    intro f hInv _
    exact ⟨by simp [FifoDataport_read], hInv, by simp [FifoDataport_read]⟩
  | succ n ih =>
    intro f hInv hn
    have hp := CharFifo_pop_notEmpty f hInv (by omega)
    have hnonempty : f.in_ ≠ f.out := by
      have := hInv.2.1
      have : CharFifo_getSize f = f.in_ - f.out := rfl
      omega
    have hfirst : FifoDataport_getFirst f = some f.first := by
      simp [FifoDataport_getFirst, FifoDataport_getContiguous, hnonempty]
    have hsz2 : CharFifo_getSize (CharFifo_pop f) = CharFifo_getSize f - 1 :=
      hp.2.2.1
    have := ih (CharFifo_pop f) hp.2.1 (by omega)
    rw [FifoDataport_read, hfirst]
    refine ⟨?_, this.2.1, by rw [this.2.2, hsz2]; omega⟩
    simp only
    rw [this.1, hp.2.2.2, List.take_succ_cons]

theorem FifoDataport_add_Inv (f : FifoDataport) (a : Nat)
    (hInv : CharFifo_Inv f) (ha : a ≤ FifoDataport_getFree f) :
    CharFifo_Inv (FifoDataport_add f a) := by
  obtain ⟨hc, hoi, hcap, hfst, hlst⟩ := hInv
  have hfree : FifoDataport_getFree f = f.capacity - (f.in_ - f.out) := rfl
  have hlastlt : f.last < f.capacity := by rw [hlst]; exact Nat.mod_lt _ hc
  have hac : a ≤ f.capacity := by omega
  refine ⟨hc, by simp [FifoDataport_add]; omega,
    by simp [FifoDataport_add]; omega, by simpa [FifoDataport_add] using hfst, ?_⟩
  show (if f.last + a ≥ FifoDataport_getCapacity f
    then f.last + a - FifoDataport_getCapacity f else f.last + a) = (f.in_ + a) % f.capacity
  rw [show FifoDataport_getCapacity f = f.capacity from rfl,
    wrap_sub_eq_mod hlastlt hac, hlst, Nat.mod_add_mod]

theorem FifoDataport_remove_Inv (f : FifoDataport) (a : Nat)
    (hInv : CharFifo_Inv f) (ha : a ≤ FifoDataport_getSize f) :
    CharFifo_Inv (FifoDataport_remove f a) := by
  obtain ⟨hc, hoi, hcap, hfst, hlst⟩ := hInv
  have hsz : FifoDataport_getSize f = f.in_ - f.out := rfl
  have hfstlt : f.first < f.capacity := by rw [hfst]; exact Nat.mod_lt _ hc
  have hac : a ≤ f.capacity := by omega
  refine ⟨hc, by simp [FifoDataport_remove]; omega,
    by simp [FifoDataport_remove]; omega, ?_, by simpa [FifoDataport_remove] using hlst⟩
  show (if f.first + a ≥ FifoDataport_getCapacity f
    then f.first + a - FifoDataport_getCapacity f else f.first + a) = (f.out + a) % f.capacity
  rw [show FifoDataport_getCapacity f = f.capacity from rfl,
    wrap_sub_eq_mod hfstlt hac, hfst, Nat.mod_add_mod]

theorem FifoDataport_run_Inv (ops : List FifoOp) : ∀ (f : FifoDataport),
    CharFifo_Inv f → FifoOp_respects f ops = true →
    CharFifo_Inv (FifoDataport_run f ops) := by
  induction ops with
  | nil => intro f hInv _; exact hInv
  | cons op rest ih =>
    intro f hInv hresp
    cases op with
    | add a =>
      simp only [FifoOp_respects, Bool.and_eq_true, decide_eq_true_eq] at hresp
      exact ih _ (FifoDataport_add_Inv f a hInv hresp.1) hresp.2
    | remove a =>
      simp only [FifoOp_respects, Bool.and_eq_true, decide_eq_true_eq] at hresp
      exact ih _ (FifoDataport_remove_Inv f a hInv hresp.1) hresp.2

theorem InputFifoStream_getLoop_exit (fuel : Nat) :
    ∀ (self : InputFifoStream) (buff : Nat → Nat) (i : Nat)
      (foundDelim : Bool) (len : Nat) (delims : Option (List Nat))
      (timeoutTicks timeBase now : Nat) (o : GetLoopOut),
    InputFifoStream_getLoop fuel self buff i foundDelim len delims
      timeoutTicks timeBase now = some o →
    ¬(o.i < len ∧ o.foundDelim = false ∧
        (timeoutTicks = 0 ∨ o.now - timeBase < timeoutTicks)) := by
  induction fuel with
  | zero =>
    intro self buff i foundDelim len delims tT tB now o h
    exact absurd h (by simp [InputFifoStream_getLoop])
  | succ fuel ih =>
    intro self buff i foundDelim len delims tT tB now o h
    rw [InputFifoStream_getLoop] at h
    split at h
    · split at h
      · exact ih _ _ _ _ _ _ _ _ _ _ h
      · split at h
        · split at h
          · exact ih _ _ _ _ _ _ _ _ _ _ h
          · exact ih _ _ _ _ _ _ _ _ _ _ h
        · exact ih _ _ _ _ _ _ _ _ _ _ h
    · rename_i hcond
      injection h with h
      subst h
      exact hcond

theorem InputFifoStream_getLoop_found (fuel : Nat) :
    ∀ (self : InputFifoStream) (buff : Nat → Nat) (i : Nat)
      (foundDelim : Bool) (len : Nat) (delims : Option (List Nat))
      (timeoutTicks timeBase now : Nat) (o : GetLoopOut),
    InputFifoStream_getLoop fuel self buff i foundDelim len delims
      timeoutTicks timeBase now = some o →
    (foundDelim = true → buff i = 0) →
    (o.foundDelim = true → o.buff o.i = 0) := by
  induction fuel with
  | zero =>
    intro self buff i foundDelim len delims tT tB now o h
    exact absurd h (by simp [InputFifoStream_getLoop])
  | succ fuel ih =>
    intro self buff i foundDelim len delims tT tB now o h hbuff
    rw [InputFifoStream_getLoop] at h
    split at h
    · rename_i hcond
      split at h
      · exact ih _ _ _ _ _ _ _ _ _ _ h hbuff
      · split at h
        · split at h
          · exact ih _ _ _ _ _ _ _ _ _ _ h (fun _ => by simp)
          · exact ih _ _ _ _ _ _ _ _ _ _ h
              (fun hf => absurd (hcond.2.1.symm.trans hf) (by simp))
        · exact ih _ _ _ _ _ _ _ _ _ _ h
            (fun hf => absurd (hcond.2.1.symm.trans hf) (by simp))
    · injection h with h
      subst h
      exact hbuff

/-- C3: for every FifoDataport, `FifoDataport_getContiguous` returns
length 0 and a NULL pointer when `in == out`; otherwise it returns a
pointer to `data[first]` and the length `last_local - first` if
`last_local > first`, else `capacity - first`, where `last_local` is
recomputed locally as `in mod capacity` rather than read from the stored
`last` field (changing the stored `last` does not change the result). -/
theorem FifoDataport_getContiguous_spec (f : FifoDataport) :
    (f.in_ = f.out → FifoDataport_getContiguous f = (none, 0)) ∧
    (f.in_ ≠ f.out →
      FifoDataport_getContiguous f =
        (some f.first,
         if f.first < f.in_ % FifoDataport_getCapacity f
         then f.in_ % FifoDataport_getCapacity f - f.first
         else FifoDataport_getCapacity f - f.first)) ∧
    (∀ l : Nat,
      FifoDataport_getContiguous { f with last := l } =
        FifoDataport_getContiguous f) := by
  refine ⟨fun h => by simp [FifoDataport_getContiguous, h],
    fun h => by simp [FifoDataport_getContiguous, h], fun l => rfl⟩

/-- Witness for C3: on the concrete empty FIFO `fRun4` the window is
`(NULL, 0)`; on `f6` (3 bytes from position 0 in capacity 4) it is
`(data[0], 3)`, and overwriting the stored `last` field with the garbage
value 9 does not change the result. -/
theorem FifoDataport_getContiguous_spec_witness :
    FifoDataport_getContiguous fRun4 = (none, 0) ∧
    FifoDataport_getContiguous f6 = (some 0, 3) ∧
    FifoDataport_getContiguous { f6 with last := 9 } =
      FifoDataport_getContiguous f6 :=
  ⟨(FifoDataport_getContiguous_spec fRun4).1 (by decide),
   ((FifoDataport_getContiguous_spec f6).2.1 (by decide)).trans (by decide),
   (FifoDataport_getContiguous_spec f6).2.2 9⟩

/-- C6: for `amount ≤ size()`, `FifoDataport_remove` advances `first` by
`amount` with explicit wraparound subtraction and adds `amount` to `out`,
leaving `in`, `last`, the capacity and the data array unchanged;
symmetrically, for `amount ≤ free`, `FifoDataport_add` advances `last`
and adds `amount` to `in`, leaving `out`, `first`, the capacity and the
data array unchanged. -/
theorem FifoDataport_commit_frame (f : FifoDataport) (r a : Nat) :
    (r ≤ FifoDataport_getSize f →
      (FifoDataport_remove f r).first =
        (if f.first + r ≥ FifoDataport_getCapacity f
         then f.first + r - FifoDataport_getCapacity f else f.first + r) ∧
      (FifoDataport_remove f r).out = f.out + r ∧
      (FifoDataport_remove f r).in_ = f.in_ ∧
      (FifoDataport_remove f r).last = f.last ∧
      (FifoDataport_remove f r).capacity = f.capacity ∧
      (FifoDataport_remove f r).buffer = f.buffer) ∧
    (a ≤ FifoDataport_getFree f →
      (FifoDataport_add f a).last =
        (if f.last + a ≥ FifoDataport_getCapacity f
         then f.last + a - FifoDataport_getCapacity f else f.last + a) ∧
      (FifoDataport_add f a).in_ = f.in_ + a ∧
      (FifoDataport_add f a).out = f.out ∧
      (FifoDataport_add f a).first = f.first ∧
      (FifoDataport_add f a).capacity = f.capacity ∧
      (FifoDataport_add f a).buffer = f.buffer) :=
  ⟨fun _ => ⟨rfl, rfl, rfl, rfl, rfl, rfl⟩,
   fun _ => ⟨rfl, rfl, rfl, rfl, rfl, rfl⟩⟩

/-- Witness for C6: on `f6` (3 bytes used, 1 free, capacity 4), removing
2 and adding 1 both satisfy their contracts and mutate only the owned
fields. -/
theorem FifoDataport_commit_frame_witness :
    ((FifoDataport_remove f6 2).first =
        (if f6.first + 2 ≥ FifoDataport_getCapacity f6
         then f6.first + 2 - FifoDataport_getCapacity f6 else f6.first + 2) ∧
      (FifoDataport_remove f6 2).out = f6.out + 2 ∧
      (FifoDataport_remove f6 2).in_ = f6.in_ ∧
      (FifoDataport_remove f6 2).last = f6.last ∧
      (FifoDataport_remove f6 2).capacity = f6.capacity ∧
      (FifoDataport_remove f6 2).buffer = f6.buffer) ∧
    ((FifoDataport_add f6 1).last =
        (if f6.last + 1 ≥ FifoDataport_getCapacity f6
         then f6.last + 1 - FifoDataport_getCapacity f6 else f6.last + 1) ∧
      (FifoDataport_add f6 1).in_ = f6.in_ + 1 ∧
      (FifoDataport_add f6 1).out = f6.out ∧
      (FifoDataport_add f6 1).first = f6.first ∧
      (FifoDataport_add f6 1).capacity = f6.capacity ∧
      (FifoDataport_add f6 1).buffer = f6.buffer) :=
  ⟨(FifoDataport_commit_frame f6 2 1).1 (by decide),
   (FifoDataport_commit_frame f6 2 1).2 (by decide)⟩

/-- C2 counterexample: the claim states that `flush` polls until the
outbound FIFO is empty; on the concrete duplex stream `sDuplex1`, whose
outbound FIFO holds one undrained byte, `FifoStream_flush` returns with
the outbound FIFO still holding that byte, not empty. -/
theorem FifoStream_flush_counterexample :
    CharFifo_getSize sDuplex1.writeFifo = 1 ∧
    CharFifo_getSize (FifoStream_flush sDuplex1).writeFifo = 1 ∧
    ¬ CharFifo_getSize (FifoStream_flush sDuplex1).writeFifo = 0 := by
  decide

/-- C2 amended: `FifoStream_flush` does not poll and does not drain: it
only logs a fatal error ("flushing a FifoStream is not supported",
asserting in debug builds) and returns with the whole stream state — in
particular the outbound write FIFO — unchanged. -/
theorem FifoStream_flush_noop (self : FifoStream) :
    FifoStream_flush self = self :=
  rfl

/-- C9: for every InputFifoStream, calling write through the Stream
interface dispatches to the file-local no-op `write`, which returns 0
for every buffer and leaves the stream (hence the read FIFO)
unchanged. -/
theorem Stream_write_on_InputFifoStream (self : InputFifoStream)
    (buffer : List Nat) :
    Stream_write InputFifoStream_vtable self buffer = (0, self) :=
  rfl

/-- C4: for every sequence of commit operations
(`FifoDataport_add`/`FifoDataport_remove`) that respects the queried free
space and occupancy bounds, the control block of a constructed
FifoDataport always satisfies `out ≤ in` with `in - out ≤ capacity`
(the reading of `0 ≤ in - out ≤ capacity` for the unbounded counters),
`first = out mod capacity`, `last = in mod capacity`,
`size() = in - out`, empty iff `in == out`, and full iff
`in - out == capacity`. -/
theorem FifoDataport_run_ctrl (storage : Nat → Nat) (capacity : Nat)
    (f0 : FifoDataport) (ops : List FifoOp) (f : FifoDataport)
    (hctor : FifoDataport_ctor storage capacity = some f0)
    (hresp : FifoOp_respects f0 ops = true)
    (hf : f = FifoDataport_run f0 ops) :
    (f.out ≤ f.in_ ∧ f.in_ - f.out ≤ f.capacity) ∧
    f.first = f.out % f.capacity ∧
    f.last = f.in_ % f.capacity ∧
    FifoDataport_getSize f = f.in_ - f.out ∧
    (FifoDataport_isEmpty f = true ↔ f.in_ = f.out) ∧
    (FifoDataport_isFull f = true ↔ f.in_ - f.out = f.capacity) := by
  subst hf
  have hInv0 := (CharFifo_ctor_Inv hctor).1
  obtain ⟨hc, hoi, hcap, hfst, hlst⟩ := FifoDataport_run_Inv ops f0 hInv0 hresp
  refine ⟨⟨hoi, hcap⟩, hfst, hlst, rfl, ?_, ?_⟩
  · simp [FifoDataport_isEmpty, CharFifo_isEmpty]
  · simp [FifoDataport_isFull, CharFifo_isFull, CharFifo_getSize,
      CharFifo_getCapacity]

/-- Witness for C4: the concrete legal sequence `opsEx` (committing 3,
consuming 2, committing 3 with index wraparound) on the capacity-4
dataport `fRun4` ends in a control block satisfying all the
invariants. -/
theorem FifoDataport_run_ctrl_witness :
    ((FifoDataport_run fRun4 opsEx).out ≤ (FifoDataport_run fRun4 opsEx).in_ ∧
      (FifoDataport_run fRun4 opsEx).in_ - (FifoDataport_run fRun4 opsEx).out ≤
        (FifoDataport_run fRun4 opsEx).capacity) ∧
    (FifoDataport_run fRun4 opsEx).first =
      (FifoDataport_run fRun4 opsEx).out % (FifoDataport_run fRun4 opsEx).capacity ∧
    (FifoDataport_run fRun4 opsEx).last =
      (FifoDataport_run fRun4 opsEx).in_ % (FifoDataport_run fRun4 opsEx).capacity ∧
    FifoDataport_getSize (FifoDataport_run fRun4 opsEx) =
      (FifoDataport_run fRun4 opsEx).in_ - (FifoDataport_run fRun4 opsEx).out ∧
    (FifoDataport_isEmpty (FifoDataport_run fRun4 opsEx) = true ↔
      (FifoDataport_run fRun4 opsEx).in_ = (FifoDataport_run fRun4 opsEx).out) ∧
    (FifoDataport_isFull (FifoDataport_run fRun4 opsEx) = true ↔
      (FifoDataport_run fRun4 opsEx).in_ - (FifoDataport_run fRun4 opsEx).out =
        (FifoDataport_run fRun4 opsEx).capacity) :=
  FifoDataport_run_ctrl zeroBuf 4 fRun4 opsEx _ rfl (by decide) rfl

/-- C5: writing the bytes `bs` into an empty FifoDataport of sufficient
capacity via `FifoDataport_write` and reading them back via
`FifoDataport_read`, with no intervening operations, accepts all of them
and yields the identical byte sequence in the identical order. -/
theorem FifoDataport_write_read_roundTrip (storage : Nat → Nat)
    (capacity : Nat) (f0 : FifoDataport) (bs : List Nat)
    (hctor : FifoDataport_ctor storage capacity = some f0)
    (hlen : bs.length ≤ capacity) :
    (FifoDataport_write f0 bs).1 = bs.length ∧
    (FifoDataport_read (FifoDataport_write f0 bs).2 bs.length).1 = bs := by
  obtain ⟨hf0, hcap⟩ := CharFifo_ctor_some hctor
  obtain ⟨hInv0, hsz0, htl0⟩ := CharFifo_ctor_Inv hctor
  have hcapf : f0.capacity = capacity := by rw [hf0]
  have hw := FifoDataport_write_all bs f0 hInv0 (by rw [hsz0, hcapf]; omega)
  have hr := FifoDataport_read_toList bs.length (FifoDataport_write f0 bs).2
    hw.2.1 (by rw [hw.2.2.1, hsz0]; omega)
  refine ⟨hw.1, ?_⟩
  rw [hr.1, hw.2.2.2, htl0, List.nil_append, List.take_length]

/-- Witness for C5: the bytes `[1, 2, 3]` round-trip through the
concrete capacity-3 dataport `fRT`. -/
theorem FifoDataport_write_read_roundTrip_witness :
    (FifoDataport_write fRT [1, 2, 3]).1 = 3 ∧
    (FifoDataport_read (FifoDataport_write fRT [1, 2, 3]).2 3).1 = [1, 2, 3] :=
  FifoDataport_write_read_roundTrip zeroBuf 3 fRT [1, 2, 3] rfl (by decide)

/-- C7: `FifoStream_write` accepts exactly
`min(length, free space of the outbound FIFO)` bytes without blocking,
returns that count, and (under the control-block invariant) appends
exactly that prefix of the buffer to the outbound FIFO content — the
remaining bytes are not accepted. -/
theorem FifoStream_write_accepts_min (self : FifoStream) (buffer : List Nat) :
    (FifoStream_write self buffer).1 =
      min buffer.length
        (CharFifo_getCapacity self.writeFifo - CharFifo_getSize self.writeFifo) ∧
    (CharFifo_Inv self.writeFifo →
      CharFifo_toList (FifoStream_write self buffer).2.writeFifo =
        CharFifo_toList self.writeFifo ++
          buffer.take (FifoStream_write self buffer).1) := by
  by_cases h : 0 < buffer.length
  · have hwr : (FifoStream_write self buffer).1 =
        (if buffer.length <
            CharFifo_getCapacity self.writeFifo - CharFifo_getSize self.writeFifo
         then buffer.length
         else CharFifo_getCapacity self.writeFifo -
           CharFifo_getSize self.writeFifo) := by
      simp [FifoStream_write, h]
    have hmin : (FifoStream_write self buffer).1 =
        min buffer.length
          (CharFifo_getCapacity self.writeFifo - CharFifo_getSize self.writeFifo) := by
      rw [hwr, Nat.min_def]
      split <;> split <;> omega
    refine ⟨hmin, fun hInv => ?_⟩
    have hfifo : (FifoStream_write self buffer).2.writeFifo =
        CharFifo_pushAll self.writeFifo
          (buffer.take (FifoStream_write self buffer).1) := by
      conv_lhs => rw [FifoStream_write]
      rw [hwr]
      simp [FifoStream_write, h]
    have hsle : CharFifo_getSize self.writeFifo ≤ self.writeFifo.capacity := by
      have := hInv.2.2.1
      have : CharFifo_getSize self.writeFifo =
        self.writeFifo.in_ - self.writeFifo.out := rfl
      omega
    have hcapc : CharFifo_getCapacity self.writeFifo = self.writeFifo.capacity :=
      rfl
    have hroom : CharFifo_getSize self.writeFifo +
        (buffer.take (FifoStream_write self buffer).1).length ≤
        self.writeFifo.capacity := by
      rw [List.length_take, hmin, hcapc]
      have h1 := Nat.min_le_right buffer.length
        (self.writeFifo.capacity - CharFifo_getSize self.writeFifo)
      have h2 := Nat.min_le_left
        (min buffer.length
          (self.writeFifo.capacity - CharFifo_getSize self.writeFifo))
        buffer.length
      omega
    have := CharFifo_pushAll_toList
      (buffer.take (FifoStream_write self buffer).1) self.writeFifo hInv hroom
    rw [hfifo, this.2.2]
  · have hlen : buffer.length = 0 := by omega
    have hbuf : buffer = [] := List.length_eq_zero.mp hlen
    subst hbuf
    exact ⟨by simp [FifoStream_write], fun _ => by simp [FifoStream_write]⟩

/-- Witness for C7: on the concrete duplex stream `sDuplex2`, whose
outbound FIFO has exactly 2 of 4 bytes free, writing a 5-byte buffer
returns exactly 2 and the outbound FIFO ends up holding the old 2 bytes
followed by only the first 2 new ones. -/
theorem FifoStream_write_accepts_min_witness :
    (FifoStream_write sDuplex2 [1, 2, 3, 4, 5]).1 = 2 ∧
    CharFifo_toList (FifoStream_write sDuplex2 [1, 2, 3, 4, 5]).2.writeFifo =
      [5, 6, 1, 2] :=
  ⟨((FifoStream_write_accepts_min sDuplex2 [1, 2, 3, 4, 5]).1).trans (by decide),
   ((FifoStream_write_accepts_min sDuplex2 [1, 2, 3, 4, 5]).2 (by decide)).trans
     (by decide)⟩

/-- C1 counterexample: on the concrete stream `sTimeoutEx` holding the
two bytes "ab", `get(len=5, delims="\n", timeout=1)` lets the timeout
elapse after reading 2 bytes without finding a delimiter; the claim says
the call then returns the count 2, but it returns the EOF sentinel. -/
theorem InputFifoStream_get_timeout_counterexample :
    (InputFifoStream_getLoop 10 sTimeoutEx zeroBuf 0 false 5 delimsNL 1 0 0).map
      (fun o => (o.i, o.foundDelim)) = some (2, false) ∧
    (InputFifoStream_get 10 sTimeoutEx zeroBuf 5 delimsNL 1 0).map
      (fun r => r.1) = some EOF_sizeT ∧
    EOF_sizeT ≠ 2 := by
  refine ⟨by decide, by decide, by decide⟩

/-- C1 amended: whenever the `InputFifoStream_get` loop terminates with
no delimiter found and fewer than `len` bytes collected, the timeout had
elapsed (`timeoutTicks` is nonzero and at least `timeoutTicks` ticks
passed since entry) and `get` returns the EOF sentinel — discarding the
count of bytes read so far, even when it is nonzero; the count is
returned only when `len` bytes were collected or a delimiter was hit. -/
theorem InputFifoStream_get_timeout_eof (fuel : Nat)
    (self : InputFifoStream) (buff : Nat → Nat) (len : Nat)
    (delims : Option (List Nat)) (timeoutTicks timeBase : Nat)
    (o : GetLoopOut)
    (hloop : InputFifoStream_getLoop fuel self buff 0 false len delims
      timeoutTicks timeBase timeBase = some o)
    (hnd : o.foundDelim = false) (hlt : o.i < len) :
    timeoutTicks ≠ 0 ∧ timeoutTicks ≤ o.now - timeBase ∧
    InputFifoStream_get fuel self buff len delims timeoutTicks timeBase =
      some (EOF_sizeT, o.buff, o.self) := by
  have hex := InputFifoStream_getLoop_exit fuel self buff 0 false len delims
    timeoutTicks timeBase timeBase o hloop
  have hnc : ¬(timeoutTicks = 0 ∨ o.now - timeBase < timeoutTicks) :=
    fun h => hex ⟨hlt, hnd, h⟩
  have h1 : timeoutTicks ≠ 0 := fun h => hnc (Or.inl h)
  have h2 : ¬(o.now - timeBase < timeoutTicks) := fun h => hnc (Or.inr h)
  have hne : (o.i == len) = false := by
    simp only [beq_eq_false_iff_ne, ne_eq]
    omega
  refine ⟨h1, by omega, ?_⟩
  simp only [InputFifoStream_get, hloop, hnd, hne, Bool.or_self,
    Bool.false_eq_true, if_false]

/-- Witness for C1 (amended): the concrete timed-out partial read on
`sTimeoutEx` returns the EOF sentinel with the loop state
`oTimeoutEx`. -/
theorem InputFifoStream_get_timeout_eof_witness :
    1 ≠ 0 ∧ 1 ≤ oTimeoutEx.now - 0 ∧
    InputFifoStream_get 10 sTimeoutEx zeroBuf 5 delimsNL 1 0 =
      some (EOF_sizeT, oTimeoutEx.buff, oTimeoutEx.self) :=
  InputFifoStream_get_timeout_eof 10 sTimeoutEx zeroBuf 5 delimsNL 1 0
    oTimeoutEx rfl (by decide) (by decide)

/-- C8: on the concrete stream `sAbcDef` pre-loaded with "abc\ndef",
`get(len=10, delims="\n", timeout=0)` returns 3, stores "abc" in the
output buffer (followed by the NUL written over the delimiter slot),
consumes the newline from the FIFO, and leaves exactly the 3 bytes "def"
available for the next call. -/
theorem InputFifoStream_get_abc_newline :
    (InputFifoStream_get 20 sAbcDef zeroBuf 10 delimsNL 0 0).map
      (fun r => r.1) = some 3 ∧
    (InputFifoStream_get 20 sAbcDef zeroBuf 10 delimsNL 0 0).map
      (fun r => [r.2.1 0, r.2.1 1, r.2.1 2]) = some [97, 98, 99] ∧
    (InputFifoStream_get 20 sAbcDef zeroBuf 10 delimsNL 0 0).map
      (fun r => InputFifoStream_available r.2.2) = some 3 ∧
    (InputFifoStream_get 20 sAbcDef zeroBuf 10 delimsNL 0 0).map
      (fun r => (InputFifoStream_read r.2.2 10).1) = some [100, 101, 102] := by
  refine ⟨by decide, by decide, by decide, by decide⟩

/-- C10: whenever the `InputFifoStream_get` loop terminates having
consumed a byte that `strchr` found among the delimiters
(`foundDelim = true`), the output buffer holds the byte 0 at position
`i` — the slot where the consumed byte had just been stored — and the
call returns the count `i`, which excludes that position. -/
theorem InputFifoStream_get_delim_writes_NUL (fuel : Nat)
    (self : InputFifoStream) (buff : Nat → Nat) (len : Nat)
    (delims : Option (List Nat)) (timeoutTicks timeBase : Nat)
    (o : GetLoopOut)
    (hloop : InputFifoStream_getLoop fuel self buff 0 false len delims
      timeoutTicks timeBase timeBase = some o)
    (hfd : o.foundDelim = true) :
    o.buff o.i = 0 ∧
    InputFifoStream_get fuel self buff len delims timeoutTicks timeBase =
      some (o.i, o.buff, o.self) := by
  refine ⟨InputFifoStream_getLoop_found fuel self buff 0 false len delims
    timeoutTicks timeBase timeBase o hloop (by simp) hfd, ?_⟩
  simp only [InputFifoStream_get, hloop, hfd, Bool.true_or, if_true]

/-- Witness for C10: on the concrete stream `sDelimEx` holding "x\n",
the loop consumes the newline, stores 0 in the output buffer at position
1 and `get` returns 1. -/
theorem InputFifoStream_get_delim_writes_NUL_witness :
    oDelimEx.buff oDelimEx.i = 0 ∧
    InputFifoStream_get 10 sDelimEx zeroBuf 5 delimsNL 7 0 =
      some (oDelimEx.i, oDelimEx.buff, oDelimEx.self) :=
  InputFifoStream_get_delim_writes_NUL 10 sDelimEx zeroBuf 5 delimsNL 7 0
    oDelimEx rfl (by decide)
